import Mathlib

/-!
Verification development for the bricks-bundle repository.

Two components are modelled: the bit-level packed field library
(exercised by the bitlevel test suite) and the segregated size-class
allocator with header-less encoded pointers (exercised by the malloc
test suite).  The library headers themselves are not part of the
source tree, only their test suites are, so the definitions below are
modelled from the specification and from the behaviour the test
suites pin down, and the theorems check the specified laws against
those models.
-/

namespace Bricks

/-! ## Bit-level packed fields (brick-bitlevel) -/

/-- Modelled from the spec: the brick-bitlevel header is missing from the
source tree (only its test suite is present).  A packed bit container is
modelled as a natural number; a field of width `w` at bit offset `off`
occupies bits `[off, off + w)`.  Reading the field extracts those bits. -/
def getField (off w t : Nat) : Nat := t / 2 ^ off % 2 ^ w

/-- Modelled from the spec: writing `v` into the field of width `w` at
offset `off` replaces bits `[off, off + w)` by `v mod 2 ^ w` and leaves
every other bit of the container unchanged. -/
def setField (off w v t : Nat) : Nat :=
  t / 2 ^ (off + w) * 2 ^ (off + w) + v % 2 ^ w * 2 ^ off + t % 2 ^ off

/-- Bit offset of field `i` of a BitTuple whose field widths are `ws`:
the sum of the widths of the preceding fields (the test suite checks
offsets 0, 10 for two 10-bit fields, 0, 63 for two 63-bit fields, and
0, 20, 40 for widths 20, 20, 3). -/
def offsets (ws : List Nat) (i : Nat) : Nat := (ws.take i).sum

/-- Reading field `i` of a BitTuple with field widths `ws`. -/
def getTF (ws : List Nat) (i : Nat) (t : Nat) : Nat :=
  getField (offsets ws i) (ws.getD i 0) t

/-- Writing `v` to field `i` of a BitTuple with field widths `ws`. -/
def setTF (ws : List Nat) (i : Nat) (v t : Nat) : Nat :=
  setField (offsets ws i) (ws.getD i 0) v t

lemma setField_low_lt (off w v t : Nat) :
    v % 2 ^ w * 2 ^ off + t % 2 ^ off < 2 ^ (off + w) := by
  have h1 : v % 2 ^ w < 2 ^ w := Nat.mod_lt _ (Nat.pos_pow_of_pos _ (by omega))
  have h2 : t % 2 ^ off < 2 ^ off := Nat.mod_lt _ (Nat.pos_pow_of_pos _ (by omega))
  calc v % 2 ^ w * 2 ^ off + t % 2 ^ off
      < (v % 2 ^ w + 1) * 2 ^ off := by rw [Nat.add_mul, Nat.one_mul]; omega
    _ ≤ 2 ^ w * 2 ^ off := Nat.mul_le_mul_right _ (by omega)
    _ = 2 ^ (off + w) := by rw [← Nat.pow_add, Nat.add_comm]

lemma getField_setField_above (o1 w1 o2 w2 v t : Nat) (h : o1 + w1 ≤ o2) :
    getField o2 w2 (setField o1 w1 v t) = getField o2 w2 t := by
  unfold getField setField
  have hB : 0 < 2 ^ (o1 + w1) := Nat.pos_pow_of_pos _ (by omega)
  have hsplit : 2 ^ (o1 + w1) * 2 ^ (o2 - (o1 + w1)) = 2 ^ o2 := by
    rw [← Nat.pow_add]; congr 1; omega
  have hr : v % 2 ^ w1 * 2 ^ o1 + t % 2 ^ o1 < 2 ^ (o1 + w1) := setField_low_lt o1 w1 v t
  congr 1
  rw [← hsplit, ← Nat.div_div_eq_div_mul, ← Nat.div_div_eq_div_mul]
  congr 1
  rw [Nat.add_assoc, Nat.mul_comm (t / 2 ^ (o1 + w1)) (2 ^ (o1 + w1)),
      Nat.mul_add_div hB, Nat.div_eq_of_lt hr, Nat.add_zero]

lemma getField_setField_below (o1 w1 o2 w2 v t : Nat) (h : o2 + w2 ≤ o1) :
    getField o2 w2 (setField o1 w1 v t) = getField o2 w2 t := by
  unfold getField setField
  have key : ∀ x y : Nat, x % 2 ^ o1 = y % 2 ^ o1 →
      x / 2 ^ o2 % 2 ^ w2 = y / 2 ^ o2 % 2 ^ w2 := by
    intro x y hxy
    have h1 : x / 2 ^ o2 % 2 ^ w2 = x % (2 ^ o2 * 2 ^ w2) / 2 ^ o2 :=
      (Nat.mod_mul_right_div_self x (2 ^ o2) (2 ^ w2)).symm
    have h2 : y / 2 ^ o2 % 2 ^ w2 = y % (2 ^ o2 * 2 ^ w2) / 2 ^ o2 :=
      (Nat.mod_mul_right_div_self y (2 ^ o2) (2 ^ w2)).symm
    rw [h1, h2]
    have hdvd : 2 ^ o2 * 2 ^ w2 ∣ 2 ^ o1 := by
      rw [← Nat.pow_add]; exact Nat.pow_dvd_pow 2 h
    rw [← Nat.mod_mod_of_dvd x hdvd, ← Nat.mod_mod_of_dvd y hdvd, hxy]
  apply key
  obtain ⟨e, he⟩ : 2 ^ o1 ∣ 2 ^ (o1 + w1) := Nat.pow_dvd_pow 2 (by omega)
  rw [he]
  have hre : t / (2 ^ o1 * e) * (2 ^ o1 * e) + v % 2 ^ w1 * 2 ^ o1 + t % 2 ^ o1
      = 2 ^ o1 * (t / (2 ^ o1 * e) * e + v % 2 ^ w1) + t % 2 ^ o1 := by ring
  rw [hre, Nat.mul_add_mod, Nat.mod_mod_of_dvd t (dvd_refl _)]

lemma getField_setField_disjoint (o1 w1 o2 w2 v t : Nat)
    (h : o1 + w1 ≤ o2 ∨ o2 + w2 ≤ o1) :
    getField o2 w2 (setField o1 w1 v t) = getField o2 w2 t := by
  rcases h with h | h
  exacts [getField_setField_above o1 w1 o2 w2 v t h,
          getField_setField_below o1 w1 o2 w2 v t h]

lemma getField_setField_self (off w v t : Nat) :
    getField off w (setField off w v t) = v % 2 ^ w := by
  unfold getField setField
  have ho : 0 < 2 ^ off := Nat.pos_pow_of_pos _ (by omega)
  have hsplit : 2 ^ (off + w) = 2 ^ off * 2 ^ w := by rw [Nat.pow_add]
  rw [hsplit]
  have hre : t / (2 ^ off * 2 ^ w) * (2 ^ off * 2 ^ w) + v % 2 ^ w * 2 ^ off + t % 2 ^ off
      = 2 ^ off * (2 ^ w * (t / (2 ^ off * 2 ^ w)) + v % 2 ^ w) + t % 2 ^ off := by ring
  rw [hre, Nat.mul_add_div ho, Nat.div_eq_of_lt (Nat.mod_lt _ ho), Nat.add_zero]
  rw [Nat.mul_add_mod, Nat.mod_mod_of_dvd v (dvd_refl _)]

lemma sum_take_mono (ws : List Nat) (a b : Nat) (h : a ≤ b) :
    (ws.take a).sum ≤ (ws.take b).sum := by
  have h1 : ws.take a = (ws.take b).take a := by
    rw [List.take_take, Nat.min_eq_left h]
  rw [h1]
  calc ((ws.take b).take a).sum
      ≤ ((ws.take b).take a).sum + ((ws.take b).drop a).sum := Nat.le_add_right _ _
    _ = (ws.take b).sum := by rw [← List.sum_append, List.take_append_drop]

lemma offsets_disjoint (ws : List Nat) (i j : Nat) (hi : i < ws.length) (hij : i < j) :
    offsets ws i + ws.getD i 0 ≤ offsets ws j := by
  unfold offsets
  have hgd : ws.getD i 0 = ws[i] := List.getD_eq_getElem ws 0 hi
  have hsucc : (ws.take (i + 1)).sum = (ws.take i).sum + ws[i] :=
    List.sum_take_succ ws i hi
  have := sum_take_mono ws (i + 1) j hij
  omega

/-- Modelled from the spec: a bvpair of two 16-bit halves, as laid out by the
test suite through a union with a 32-bit word on a little-endian machine:
the first (low) half occupies the low 16 bits, the second (high) half the
high 16 bits. -/
structure bvpair where
  lo : Nat
  hi : Nat

/-- The 32-bit word a bvpair overlays (the test asserts
val == (hi << 16) | lo). -/
def bvval (p : bvpair) : Nat := p.hi * 65536 + p.lo

/-- Modelled from the spec: left shift of a bvpair, computed half-wise.  For
shifts below the half width, each half is shifted with the bits falling out
of the low half carried into the high half; for larger shifts the low half
moves into the high half.  Each half is truncated to 16 bits. -/
def bvshl (p : bvpair) (k : Nat) : bvpair :=
  if k < 16 then ⟨p.lo * 2 ^ k % 65536, (p.hi * 2 ^ k ||| p.lo / 2 ^ (16 - k)) % 65536⟩
  else ⟨0, p.lo * 2 ^ (k - 16) % 65536⟩

/-- Modelled from the spec: right shift of a bvpair, computed half-wise, with
the bits falling out of the high half carried into the low half. -/
def bvshr (p : bvpair) (k : Nat) : bvpair :=
  if k < 16 then ⟨(p.lo / 2 ^ k ||| p.hi % 2 ^ k * 2 ^ (16 - k)) % 65536, p.hi / 2 ^ k⟩
  else ⟨p.hi / 2 ^ (k - 16), 0⟩

/-- Claim C8: for every BitTuple value and every field index i, setting field i
leaves the value read from every other field j distinct from i unchanged:
fields at distinct indices occupy disjoint bit ranges, so a write to one is
invisible to the others, regardless of how the bits fall into machine words. -/
theorem bittuple_set_frame (ws : List Nat) (i j v t : Nat)
    (hi : i < ws.length) (hj : j < ws.length) (hij : i ≠ j) :
    getTF ws j (setTF ws i v t) = getTF ws j t := by
  unfold getTF setTF
  apply getField_setField_disjoint
  rcases Nat.lt_or_ge i j with h | h
  · exact Or.inl (offsets_disjoint ws i j hi h)
  · exact Or.inr (offsets_disjoint ws j i hj (by omega))

/-- Witness for C8 at the widths of the structure test (a 120-bit field next
to a 63-bit field): writing the second field leaves the first intact. -/
theorem bittuple_set_frame_witness :
    (1 : Nat) ≠ 0 ∧
    getTF [120, 63] 0 (setTF [120, 63] 1 4611686018427387911 333) =
      getTF [120, 63] 0 333 :=
  ⟨by decide, bittuple_set_frame [120, 63] 1 0 4611686018427387911 333
    (by decide) (by decide) (by decide)⟩

/-- Claim C9: setting a BitField of width w stores the written value modulo 2 ^ w;
in particular writing 15 into the 3-bit third field of the nested test tuple
(widths 20, 20, 3) and reading it back yields 7: the MSB is dropped. -/
theorem bitfield_set_truncates :
    (∀ off w v t : Nat, getField off w (setField off w v t) = v % 2 ^ w) ∧
    getTF [20, 20, 3] 2 (setTF [20, 20, 3] 2 15 0) = 7 :=
  ⟨fun off w v t => getField_setField_self off w v t, by decide⟩

/-- Claim C10: for a bvpair of two 16-bit halves overlaid on a 32-bit word,
shifting the pair left or right by k gives the same 32-bit representation as
shifting the plain 32-bit word by k, for k = 7 (within one half), k = 18
(crossing between halves) and k = 20 (at least 16). -/
theorem bvpair_shift_matches_word (lo hi k : Nat)
    (hlo : lo < 65536) (hhi : hi < 65536) (hk : k = 7 ∨ k = 18 ∨ k = 20) :
    bvval (bvshl ⟨lo, hi⟩ k) = bvval ⟨lo, hi⟩ * 2 ^ k % 4294967296 ∧
    bvval (bvshr ⟨lo, hi⟩ k) = bvval ⟨lo, hi⟩ / 2 ^ k := by
  rcases hk with rfl | rfl | rfl
  · have h1 := Nat.mul_add_lt_is_or (show lo / 512 < 2 ^ 7 by omega) hi
    have h2 := Nat.mul_add_lt_is_or (show lo / 128 < 2 ^ 9 by omega) (hi % 128)
    norm_num at h1 h2
    constructor
    · simp only [bvshl, bvval]
      norm_num
      rw [Nat.mul_comm hi 128, ← h1]
      omega
    · simp only [bvshr, bvval]
      norm_num
      rw [Nat.or_comm, Nat.mul_comm (hi % 128) 512, ← h2]
      omega
  · constructor
    · simp only [bvshl, bvval]; norm_num; omega
    · simp only [bvshr, bvval]; norm_num; omega
  · constructor
    · simp only [bvshl, bvval]; norm_num; omega
    · simp only [bvshr, bvval]; norm_num; omega

/-- Witness for C10 at the test's first input: the pair (23, 13), shifted
by 7. -/
theorem bvpair_shift_matches_word_witness :
    (23 : Nat) < 65536 ∧
    bvval (bvshl ⟨23, 13⟩ 7) = bvval ⟨23, 13⟩ * 2 ^ 7 % 4294967296 ∧
    bvval (bvshr ⟨23, 13⟩ 7) = bvval ⟨23, 13⟩ / 2 ^ 7 :=
  ⟨by decide, bvpair_shift_matches_word 23 13 7 (by decide) (by decide) (Or.inl rfl)⟩

/-! ## Segregated size-class allocator (brick-malloc) -/

/-- Modelled from the spec: the brick-malloc header is missing from the
source tree (only its test suite is present).  Rounding granule of each of
the six size classes, keyed by alignment group 1..6; the table is the one
the malloc test suite pins down: requests up to 1024 bytes round to
multiples of 4, up to 4096 to 16, up to 32768 to 128, up to 524288 to 2048,
up to 8388608 to 32768 and up to 134217728 to 524288. -/
def granule (a : Nat) : Nat :=
  if a = 1 then 4 else if a = 2 then 16 else if a = 3 then 128
  else if a = 4 then 2048 else if a = 5 then 32768
  else if a = 6 then 524288 else 0

/-- Largest size the allocator accepts: the top of the largest class. -/
def maxAlloc : Nat := 134217728

/-- Modelled from the spec: rounded size selected by size group `s` of the
class with alignment group `a`: group `s` (0 ≤ s < 256 for classified
requests) stands for the rounded size `(s + 1) * granule a`, so that each
class admits exactly 256 distinct rounded sizes. -/
def size (a s : Nat) : Nat := (s + 1) * granule a

/-- Modelled from the spec: brq::align rounds `x` up to a multiple of `a`. -/
def align (x a : Nat) : Nat := (x + a - 1) / a * a

/-- Modelled from the spec: classify a request into (alignment group,
size group), following the class table of the test suite; the size group
is chosen so that `size` recovers the request rounded up to the class
granule. -/
def classify (bytes : Nat) : Nat × Nat :=
  if bytes ≤ 1024 then (1, (bytes + 3) / 4 - 1)
  else if bytes ≤ 4096 then (2, (bytes + 15) / 16 - 1)
  else if bytes ≤ 32768 then (3, (bytes + 127) / 128 - 1)
  else if bytes ≤ 524288 then (4, (bytes + 2047) / 2048 - 1)
  else if bytes ≤ 8388608 then (5, (bytes + 32767) / 32768 - 1)
  else (6, (bytes + 524287) / 524288 - 1)

/-- An encoded pointer: the logical triple the address stands for. -/
structure ptr where
  a_group : Nat
  s_group : Nat
  index : Nat
deriving DecidableEq

/-- Construction of an encoded pointer from its parts. -/
def from_parts (a s idx : Nat) : ptr := ⟨a, s, idx⟩

/-- Modelled from the spec: each (alignment group, size group) pair owns
the disjoint 2^36-byte address region whose region id `a * 512 + s` forms
the high-order address bits; slot `k` sits at byte offset `k * size a s`
inside the region. -/
def encode (p : ptr) : Nat :=
  (p.a_group * 512 + p.s_group) * 68719476736 +
    p.index * size p.a_group p.s_group

/-- Modelled from the spec: decoding an address recovers the groups from
the high-order bits and the slot index by dividing the in-region offset by
the slot size. -/
def decode (addr : Nat) : ptr :=
  ⟨addr / 68719476736 / 512, addr / 68719476736 % 512,
   addr % 68719476736 / size (addr / 68719476736 / 512) (addr / 68719476736 % 512)⟩

/-- Rounded size recorded in an address, as reported to callers. -/
def size_of (addr : Nat) : Nat :=
  size (decode addr).a_group (decode addr).s_group

/-- Number of slots that fit in one class's 2^36-byte region. -/
def cap (a s : Nat) : Nat := 68719476736 / size a s

/-- Per-class free-list bookkeeping: the stack of freed slot indices and
the high-water mark of never-yet-used indices. -/
structure freelist where
  free : List Nat
  high : Nat
deriving DecidableEq

/-- Whole-allocator bookkeeping state: one freelist per class pair. -/
def State : Type := Nat × Nat → freelist

/-- Pointwise update of the allocator state at one class. -/
def upd (σ : State) (c : Nat × Nat) (f : freelist) : State :=
  fun d => if d = c then f else σ d

/-- The pristine allocator: nothing allocated, nothing freed. -/
def init : State := fun _ => ⟨[], 0⟩

/-- Allocation failure conditions. -/
inductive err where
  | invalidSize
  | outOfMemory
deriving DecidableEq

/-- Modelled from the spec: allocate classifies the request (rejecting 0 and
oversized requests immediately, with no state change), pops the most
recently freed slot of the class if one exists (LIFO reuse), and otherwise
takes a fresh index at the high-water mark, failing with out-of-memory when
the class region is exhausted. -/
def alloc (σ : State) (bytes : Nat) : Except err ptr × State :=
  if bytes = 0 ∨ maxAlloc < bytes then (Except.error err.invalidSize, σ)
  else
    match (σ (classify bytes)).free with
    | i :: rest =>
      (Except.ok ⟨(classify bytes).1, (classify bytes).2, i⟩,
       upd σ (classify bytes) ⟨rest, (σ (classify bytes)).high⟩)
    | [] =>
      if (σ (classify bytes)).high < cap (classify bytes).1 (classify bytes).2 then
        (Except.ok ⟨(classify bytes).1, (classify bytes).2, (σ (classify bytes)).high⟩,
         upd σ (classify bytes) ⟨[], (σ (classify bytes)).high + 1⟩)
      else (Except.error err.outOfMemory, σ)

/-- Modelled from the spec: releasing a slot pushes its index on its
class's free stack; the high-water mark is unchanged. -/
def free_parts (σ : State) (p : ptr) : State :=
  upd σ (p.a_group, p.s_group)
    ⟨p.index :: (σ (p.a_group, p.s_group)).free, (σ (p.a_group, p.s_group)).high⟩

/-- Modelled from the spec: brq::free decodes the address and releases the
slot it stands for. -/
def free (σ : State) (addr : Nat) : State := free_parts σ (decode addr)

/-- Allocator state invariant: each class's free stack holds pairwise
distinct indices, all below the high-water mark, and the high-water mark
never exceeds the region capacity. -/
def WF (σ : State) : Prop :=
  ∀ c : Nat × Nat, (σ c).free.Nodup ∧
    (∀ i ∈ (σ c).free, i < (σ c).high) ∧ (σ c).high ≤ cap c.1 c.2

/-- The indices of a class currently held live by callers: issued (below
the high-water mark) and not on the free stack. -/
def live (σ : State) (c : Nat × Nat) : List Nat :=
  (List.range (σ c).high).filter (fun i => i ∉ (σ c).free)

/-- A single byte store at address `addrb`. -/
def writeByte (m : Nat → Nat) (addrb v : Nat) : Nat → Nat :=
  fun x => if x = addrb then v else m x

lemma granule_pos (a : Nat) (h1 : 1 ≤ a) (h2 : a ≤ 6) : 0 < granule a := by
  interval_cases a <;> decide

lemma size_pos (a s : Nat) (h1 : 1 ≤ a) (h2 : a ≤ 6) : 0 < size a s :=
  Nat.mul_pos (by omega) (granule_pos a h1 h2)

lemma mul_size_lt_region (a s idx : Nat) (hsz : 0 < size a s)
    (hidx : idx < cap a s) : idx * size a s + size a s < 68719476737 := by
  have h1 : (idx + 1) * size a s ≤ cap a s * size a s :=
    Nat.mul_le_mul_right _ (by omega)
  have h2 : cap a s * size a s ≤ 68719476736 := Nat.div_mul_le_self _ _
  have h3 : (idx + 1) * size a s = idx * size a s + size a s := by ring
  omega

lemma upd_self (σ : State) (c : Nat × Nat) (f : freelist) : upd σ c f c = f := by
  simp [upd]

lemma upd_other (σ : State) (c d : Nat × Nat) (f : freelist) (h : d ≠ c) :
    upd σ c f d = σ d := by
  simp [upd, h]

lemma live_mem (σ : State) (c : Nat × Nat) (i : Nat) :
    i ∈ live σ c ↔ i < (σ c).high ∧ i ∉ (σ c).free := by
  simp [live, List.mem_filter, List.mem_range]

lemma wf_init : WF init := by
  intro c
  refine ⟨List.nodup_nil, by simp [init], ?_⟩
  show 0 ≤ cap c.1 c.2
  omega

lemma classify_spec (bytes : Nat) (h1 : 1 ≤ bytes) (h2 : bytes ≤ maxAlloc) :
    1 ≤ (classify bytes).1 ∧ (classify bytes).1 ≤ 6 ∧ (classify bytes).2 < 256 ∧
    size (classify bytes).1 (classify bytes).2 = align bytes (granule (classify bytes).1) := by
  unfold classify maxAlloc at *
  split_ifs <;> simp [size, granule, align] <;> omega

lemma decode_encode (a s idx : Nat) (h1 : 1 ≤ a) (h2 : a ≤ 6) (hs : s < 512)
    (hidx : idx * size a s < 68719476736) :
    decode (encode (from_parts a s idx)) = from_parts a s idx := by
  have hsz : 0 < size a s := size_pos a s h1 h2
  unfold decode encode from_parts
  simp only
  have hrid : ((a * 512 + s) * 68719476736 + idx * size a s) / 68719476736
      = a * 512 + s := by
    generalize idx * size a s = off at hidx ⊢
    omega
  have hmod : ((a * 512 + s) * 68719476736 + idx * size a s) % 68719476736
      = idx * size a s := by
    generalize idx * size a s = off at hidx ⊢
    omega
  have ha : (a * 512 + s) / 512 = a := by omega
  have hs2 : (a * 512 + s) % 512 = s := by omega
  rw [ptr.mk.injEq, hrid, hmod, ha, hs2]
  exact ⟨rfl, rfl, Nat.mul_div_cancel idx hsz⟩

lemma alloc_ok_inv (σ : State) (bytes : Nat) (p : ptr) (σ2 : State)
    (h : alloc σ bytes = (Except.ok p, σ2)) :
    bytes ≠ 0 ∧ bytes ≤ maxAlloc ∧
    p.a_group = (classify bytes).1 ∧ p.s_group = (classify bytes).2 ∧
    ((∃ rest, (σ (classify bytes)).free = p.index :: rest ∧
        σ2 = upd σ (classify bytes) ⟨rest, (σ (classify bytes)).high⟩) ∨
     ((σ (classify bytes)).free = [] ∧ p.index = (σ (classify bytes)).high ∧
        (σ (classify bytes)).high < cap (classify bytes).1 (classify bytes).2 ∧
        σ2 = upd σ (classify bytes) ⟨[], (σ (classify bytes)).high + 1⟩)) := by
  unfold alloc at h
  split at h
  · exact absurd (congrArg Prod.fst h) (by simp)
  next hcond =>
    push_neg at hcond
    split at h
    next i rest heq =>
      have h1 := congrArg Prod.fst h
      have h2 := congrArg Prod.snd h
      simp only at h1 h2
      rw [Except.ok.injEq] at h1
      subst h1
      exact ⟨hcond.1, hcond.2, rfl, rfl, Or.inl ⟨rest, heq, h2.symm⟩⟩
    next heq =>
      split at h
      next hcap =>
        have h1 := congrArg Prod.fst h
        have h2 := congrArg Prod.snd h
        simp only at h1 h2
        rw [Except.ok.injEq] at h1
        subst h1
        exact ⟨hcond.1, hcond.2, rfl, rfl, Or.inr ⟨heq, rfl, hcap, h2.symm⟩⟩
      · exact absurd (congrArg Prod.fst h) (by simp)

lemma WF_upd_pop (σ : State) (c : Nat × Nat) (i : Nat) (rest : List Nat)
    (hWF : WF σ) (heq : (σ c).free = i :: rest) :
    WF (upd σ c ⟨rest, (σ c).high⟩) := by
  intro d
  by_cases hd : d = c
  · subst hd
    rw [upd_self]
    obtain ⟨hnd, hbd, hcap⟩ := hWF d
    rw [heq] at hnd hbd
    exact ⟨(List.nodup_cons.mp hnd).2,
           fun x hx => hbd x (List.mem_cons_of_mem i hx), hcap⟩
  · rw [upd_other σ c d _ hd]
    exact hWF d

lemma WF_upd_fresh (σ : State) (c : Nat × Nat)
    (hWF : WF σ) (hcap : (σ c).high < cap c.1 c.2) :
    WF (upd σ c ⟨[], (σ c).high + 1⟩) := by
  intro d
  by_cases hd : d = c
  · subst hd
    rw [upd_self]
    exact ⟨List.nodup_nil, by simp, Nat.succ_le_of_lt hcap⟩
  · rw [upd_other σ c d _ hd]
    exact hWF d

lemma WF_alloc (σ : State) (bytes : Nat) (p : ptr) (σ2 : State)
    (hWF : WF σ) (h : alloc σ bytes = (Except.ok p, σ2)) : WF σ2 := by
  obtain ⟨-, -, -, -, hcase⟩ := alloc_ok_inv σ bytes p σ2 h
  rcases hcase with ⟨rest, heq, rfl⟩ | ⟨-, -, hcap, rfl⟩
  · exact WF_upd_pop σ _ _ rest hWF heq
  · exact WF_upd_fresh σ _ hWF hcap

lemma WF_free_live (σ : State) (q : ptr)
    (hWF : WF σ) (hlive : q.index ∈ live σ (q.a_group, q.s_group)) :
    WF (free_parts σ q) := by
  rw [live_mem] at hlive
  intro d
  unfold free_parts
  by_cases hd : d = (q.a_group, q.s_group)
  · subst hd
    rw [upd_self]
    obtain ⟨hnd, hbd, hcap⟩ := hWF (q.a_group, q.s_group)
    refine ⟨List.nodup_cons.mpr ⟨hlive.2, hnd⟩, ?_, hcap⟩
    intro x hx
    rcases List.mem_cons.mp hx with rfl | hx
    · exact hlive.1
    · exact hbd x hx
  · rw [upd_other _ _ d _ hd]
    exact hWF d

lemma partition_of_WF (σ : State) (hWF : WF σ) :
    (∀ c : Nat × Nat, ∀ i, (i ∈ (σ c).free ∨ i ∈ live σ c) ↔ i < (σ c).high) ∧
    (∀ c : Nat × Nat, ∀ i, i ∈ (σ c).free → i ∉ live σ c) := by
  constructor
  · intro c i
    constructor
    · intro hc
      rcases hc with hc | hc
      · exact (hWF c).2.1 i hc
      · exact ((live_mem σ c i).mp hc).1
    · intro hc
      by_cases hf : i ∈ (σ c).free
      · exact Or.inl hf
      · exact Or.inr ((live_mem σ c i).mpr ⟨hc, hf⟩)
  · intro c i hf hl
    exact ((live_mem σ c i).mp hl).2 hf

lemma alloc_pop (σ : State) (bytes i : Nat) (rest : List Nat)
    (hb : ¬(bytes = 0 ∨ maxAlloc < bytes))
    (hfree : (σ (classify bytes)).free = i :: rest) :
    alloc σ bytes = (Except.ok ⟨(classify bytes).1, (classify bytes).2, i⟩,
      upd σ (classify bytes) ⟨rest, (σ (classify bytes)).high⟩) := by
  unfold alloc
  rw [if_neg hb, hfree]

lemma alloc_fresh (σ : State) (bytes : Nat)
    (hb : ¬(bytes = 0 ∨ maxAlloc < bytes))
    (hfree : (σ (classify bytes)).free = [])
    (hroom : (σ (classify bytes)).high < cap (classify bytes).1 (classify bytes).2) :
    alloc σ bytes = (Except.ok ⟨(classify bytes).1, (classify bytes).2, (σ (classify bytes)).high⟩,
      upd σ (classify bytes) ⟨[], (σ (classify bytes)).high + 1⟩) := by
  unfold alloc
  rw [if_neg hb, hfree]
  exact if_pos hroom

lemma alloc_index_lt_cap (σ : State) (bytes : Nat) (p : ptr) (σ2 : State)
    (hWF : WF σ) (h : alloc σ bytes = (Except.ok p, σ2)) :
    p.index < cap p.a_group p.s_group := by
  obtain ⟨-, -, hpa, hps, hcase⟩ := alloc_ok_inv σ bytes p σ2 h
  obtain ⟨-, hbd, hcap⟩ := hWF (classify bytes)
  rw [hpa, hps]
  rcases hcase with ⟨rest, heq, -⟩ | ⟨-, hidx, hcap2, -⟩
  · have := hbd p.index (heq ▸ List.mem_cons_self p.index rest)
    omega
  · omega

lemma alloc_ptr_valid (σ : State) (bytes : Nat) (p : ptr) (σ2 : State)
    (h : alloc σ bytes = (Except.ok p, σ2)) :
    1 ≤ p.a_group ∧ p.a_group ≤ 6 ∧ p.s_group < 512 := by
  obtain ⟨hb0, hb1, hpa, hps, -⟩ := alloc_ok_inv σ bytes p σ2 h
  obtain ⟨h1, h2, h3, -⟩ := classify_spec bytes (by omega) hb1
  rw [hpa, hps]
  exact ⟨h1, h2, by omega⟩

lemma decode_encode_ptr (p : ptr) (h1 : 1 ≤ p.a_group) (h2 : p.a_group ≤ 6)
    (hs : p.s_group < 512) (hidx : p.index < cap p.a_group p.s_group) :
    decode (encode p) = p := by
  have hsz : 0 < size p.a_group p.s_group := size_pos p.a_group p.s_group h1 h2
  have hlt := mul_size_lt_region p.a_group p.s_group p.index hsz hidx
  exact decode_encode p.a_group p.s_group p.index h1 h2 hs (by omega)

/-- Claim C1: for every valid triple (alignment group, size group, index) with
index * slot_size below 2^36, the address built by from_parts decodes back
to exactly that triple, and the a_group and s_group accessors of the built
pointer return the groups it was built from. -/
theorem from_parts_roundtrip (a s idx : Nat) (h1 : 1 ≤ a) (h2 : a ≤ 6)
    (hs : s < 512) (hidx : idx * size a s < 68719476736) :
    decode (encode (from_parts a s idx)) = from_parts a s idx ∧
    (from_parts a s idx).a_group = a ∧ (from_parts a s idx).s_group = s :=
  ⟨decode_encode a s idx h1 h2 hs hidx, rfl, rfl⟩

/-- Witness for C1 at the parts test's triple (1, 7, 13). -/
theorem from_parts_roundtrip_witness :
    13 * size 1 7 < 68719476736 ∧
    (decode (encode (from_parts 1 7 13)) = from_parts 1 7 13 ∧
     (from_parts 1 7 13).a_group = 1 ∧ (from_parts 1 7 13).s_group = 7) :=
  ⟨by decide,
   from_parts_roundtrip 1 7 13 (by decide) (by decide) (by decide) (by decide)⟩

/-- Claim C2: for every request between 1 byte and 128 MiB, allocation from a
well-formed state with room in the class succeeds, and size_of of the
returned address is the request rounded up to a multiple of the granule of
the class containing it, per the six-class table built into classify and
granule. -/
theorem alloc_size_of (σ : State) (bytes : Nat) (hWF : WF σ)
    (h1 : 1 ≤ bytes) (h2 : bytes ≤ maxAlloc)
    (hroom : (σ (classify bytes)).high < cap (classify bytes).1 (classify bytes).2) :
    ∃ p σ2, alloc σ bytes = (Except.ok p, σ2) ∧
      size_of (encode p) = align bytes (granule (classify bytes).1) := by
  have hb : ¬(bytes = 0 ∨ maxAlloc < bytes) := by omega
  obtain ⟨ha1, ha2, hs256, hsz⟩ := classify_spec bytes h1 h2
  have key : ∀ q : ptr, ∀ τ : State, alloc σ bytes = (Except.ok q, τ) →
      size_of (encode q) = align bytes (granule (classify bytes).1) := by
    intro q τ hq
    obtain ⟨hv1, hv2, hv3⟩ := alloc_ptr_valid σ bytes q τ hq
    have hqc := alloc_index_lt_cap σ bytes q τ hWF hq
    obtain ⟨-, -, hqa, hqs, -⟩ := alloc_ok_inv σ bytes q τ hq
    unfold size_of
    rw [decode_encode_ptr q hv1 hv2 hv3 hqc, hqa, hqs, hsz]
  rcases hfree : (σ (classify bytes)).free with _ | ⟨i, rest⟩
  · have halloc := alloc_fresh σ bytes hb hfree hroom
    exact ⟨_, _, halloc, key _ _ halloc⟩
  · have halloc := alloc_pop σ bytes i rest hb hfree
    exact ⟨_, _, halloc, key _ _ halloc⟩

/-- Witness for C2 at the maximum allocation: 128 MiB from the pristine
allocator, whose size_of comes back as exactly 128 MiB. -/
theorem alloc_size_of_witness :
    (1 : Nat) ≤ 134217728 ∧
    (∃ p σ2, alloc init 134217728 = (Except.ok p, σ2) ∧
      size_of (encode p) = align 134217728 (granule (classify 134217728).1)) ∧
    align 134217728 (granule (classify 134217728).1) = 134217728 :=
  ⟨by decide,
   alloc_size_of init 134217728 wf_init (by decide) (by decide) (by decide),
   by decide⟩

/-- Claim C3: no aliasing under churn.  From any well-formed state, a successful
allocation returns a slot not currently held live, preserves well-formedness,
and in the resulting state each class's free indices and live indices
partition [0, high-water mark) exactly; moreover freeing any live slot
preserves well-formedness, so the invariant is maintained across any churn
of allocations and frees. -/
theorem alloc_no_alias (σ : State) (bytes : Nat) (p : ptr) (σ2 : State)
    (hWF : WF σ) (h : alloc σ bytes = (Except.ok p, σ2)) :
    p.index ∉ live σ (p.a_group, p.s_group) ∧
    WF σ2 ∧
    (∀ c : Nat × Nat, ∀ i, (i ∈ (σ2 c).free ∨ i ∈ live σ2 c) ↔ i < (σ2 c).high) ∧
    (∀ c : Nat × Nat, ∀ i, i ∈ (σ2 c).free → i ∉ live σ2 c) ∧
    (∀ q : ptr, q.index ∈ live σ2 (q.a_group, q.s_group) → WF (free_parts σ2 q)) := by
  obtain ⟨hb0, hb1, hpa, hps, hcase⟩ := alloc_ok_inv σ bytes p σ2 h
  have hc : (p.a_group, p.s_group) = classify bytes := by rw [hpa, hps]
  have hWF2 := WF_alloc σ bytes p σ2 hWF h
  obtain ⟨hpart1, hpart2⟩ := partition_of_WF σ2 hWF2
  refine ⟨?_, hWF2, hpart1, hpart2, fun q hq => WF_free_live σ2 q hWF2 hq⟩
  rw [hc, live_mem]
  rcases hcase with ⟨rest, heq, -⟩ | ⟨-, hidx, -, -⟩
  · rw [heq]
    simp
  · intro hcon
    omega

/-- Claim C4: LIFO single-slot reuse.  A successful allocation, followed by
freeing the returned address, followed by another allocation of the same
size, returns the identical pointer: the most recently freed slot of the
class is the first one reused. -/
theorem alloc_free_alloc (σ : State) (bytes : Nat) (p : ptr) (σ2 : State)
    (hWF : WF σ) (h : alloc σ bytes = (Except.ok p, σ2)) :
    (alloc (free σ2 (encode p)) bytes).1 = Except.ok p := by
  obtain ⟨hb0, hb1, hpa, hps, -⟩ := alloc_ok_inv σ bytes p σ2 h
  obtain ⟨hv1, hv2, hv3⟩ := alloc_ptr_valid σ bytes p σ2 h
  have hpc := alloc_index_lt_cap σ bytes p σ2 hWF h
  have hdec : decode (encode p) = p := decode_encode_ptr p hv1 hv2 hv3 hpc
  have hc : (p.a_group, p.s_group) = classify bytes := by rw [hpa, hps]
  unfold free
  rw [hdec]
  have hfree2 : ((free_parts σ2 p) (classify bytes)).free
      = p.index :: (σ2 (classify bytes)).free := by
    unfold free_parts
    rw [hc, upd_self]
  have halloc := alloc_pop (free_parts σ2 p) bytes p.index ((σ2 (classify bytes)).free)
    (by omega) hfree2
  rw [halloc, ← hpa, ← hps]

lemma slot_disjoint (p q : ptr)
    (hp1 : 1 ≤ p.a_group) (hp2 : p.a_group ≤ 6) (hp3 : p.s_group < 512)
    (hq1 : 1 ≤ q.a_group) (hq2 : q.a_group ≤ 6) (hq3 : q.s_group < 512)
    (hpc : p.index < cap p.a_group p.s_group)
    (hqc : q.index < cap q.a_group q.s_group) (hne : p ≠ q) :
    encode p + size p.a_group p.s_group ≤ encode q ∨
    encode q + size q.a_group q.s_group ≤ encode p := by
  have hpsz : 0 < size p.a_group p.s_group := size_pos _ _ hp1 hp2
  have hqsz : 0 < size q.a_group q.s_group := size_pos _ _ hq1 hq2
  have hpr := mul_size_lt_region _ _ p.index hpsz hpc
  have hqr := mul_size_lt_region _ _ q.index hqsz hqc
  unfold encode
  by_cases hrid : p.a_group * 512 + p.s_group = q.a_group * 512 + q.s_group
  · have has : p.a_group = q.a_group := by omega
    have hss : p.s_group = q.s_group := by omega
    have hidx : p.index ≠ q.index := by
      intro hix
      apply hne
      cases p
      cases q
      simp_all
    have hsz_eq : size p.a_group p.s_group = size q.a_group q.s_group := by
      rw [has, hss]
    rcases Nat.lt_or_ge p.index q.index with hlt | hge
    · left
      have h1 : (p.index + 1) * size q.a_group q.s_group
          ≤ q.index * size q.a_group q.s_group :=
        Nat.mul_le_mul_right _ (by omega)
      have h2 : (p.index + 1) * size q.a_group q.s_group
          = p.index * size q.a_group q.s_group + size q.a_group q.s_group := by ring
      rw [hrid, hsz_eq]
      omega
    · right
      have hlt2 : q.index < p.index := by omega
      have h1 : (q.index + 1) * size p.a_group p.s_group
          ≤ p.index * size p.a_group p.s_group :=
        Nat.mul_le_mul_right _ (by omega)
      have h2 : (q.index + 1) * size p.a_group p.s_group
          = q.index * size p.a_group p.s_group + size p.a_group p.s_group := by ring
      rw [← hrid, ← hsz_eq]
      omega
  · rcases Nat.lt_or_ge (p.a_group * 512 + p.s_group) (q.a_group * 512 + q.s_group)
      with hlt | hge
    · left
      have h2 : (p.a_group * 512 + p.s_group + 1) * 68719476736
          ≤ (q.a_group * 512 + q.s_group) * 68719476736 :=
        Nat.mul_le_mul_right _ (by omega)
      have h3 : (p.a_group * 512 + p.s_group + 1) * 68719476736
          = (p.a_group * 512 + p.s_group) * 68719476736 + 68719476736 := by ring
      omega
    · right
      have hlt2 : q.a_group * 512 + q.s_group < p.a_group * 512 + p.s_group := by omega
      have h2 : (q.a_group * 512 + q.s_group + 1) * 68719476736
          ≤ (p.a_group * 512 + p.s_group) * 68719476736 :=
        Nat.mul_le_mul_right _ (by omega)
      have h3 : (q.a_group * 512 + q.s_group + 1) * 68719476736
          = (q.a_group * 512 + q.s_group) * 68719476736 + 68719476736 := by ring
      omega

/-- Claim C5: allocate and free operations never touch payload memory in the
model, and a newly allocated slot's byte range is disjoint from the byte
range of every slot still held live, so a write through the new pointer
reads back unchanged from every still-live slot: payloads written before a
churn of frees and reallocations survive it. -/
theorem live_slot_frame (σ : State) (bytes : Nat) (p : ptr) (σ2 : State) (q : ptr)
    (m : Nat → Nat) (v x y : Nat) (hWF : WF σ)
    (h : alloc σ bytes = (Except.ok p, σ2))
    (hq1 : 1 ≤ q.a_group) (hq2 : q.a_group ≤ 6) (hq3 : q.s_group < 512)
    (hqlive : q.index ∈ live σ (q.a_group, q.s_group))
    (hx1 : encode q ≤ x) (hx2 : x < encode q + size q.a_group q.s_group)
    (hy1 : encode p ≤ y) (hy2 : y < encode p + size p.a_group p.s_group) :
    writeByte m y v x = m x := by
  obtain ⟨hv1, hv2, hv3⟩ := alloc_ptr_valid σ bytes p σ2 h
  have hpc := alloc_index_lt_cap σ bytes p σ2 hWF h
  have hqc : q.index < cap q.a_group q.s_group := by
    have hh := ((live_mem σ _ q.index).mp hqlive).1
    have hcp : (σ (q.a_group, q.s_group)).high ≤ cap q.a_group q.s_group :=
      (hWF (q.a_group, q.s_group)).2.2
    omega
  have hne : p ≠ q := by
    intro hpq
    obtain ⟨hb0, hb1, hpa, hps, hcase⟩ := alloc_ok_inv σ bytes p σ2 h
    rw [live_mem] at hqlive
    rw [← hpq] at hqlive
    have hcc : (p.a_group, p.s_group) = classify bytes := by rw [hpa, hps]
    rw [hcc] at hqlive
    rcases hcase with ⟨rest, heq, -⟩ | ⟨-, hidx, -, -⟩
    · exact hqlive.2 (heq ▸ List.mem_cons_self p.index rest)
    · omega
  have hdisj := slot_disjoint p q hv1 hv2 hv3 hq1 hq2 hq3 hpc hqc hne
  have hxy : x ≠ y := by rcases hdisj with hd | hd <;> omega
  unfold writeByte
  rw [if_neg hxy]

/-- The state after one 4-byte allocation from the pristine allocator. -/
def state1 : State := upd init (1, 0) ⟨[], 1⟩

/-- The state after two 4-byte allocations from the pristine allocator. -/
def state2 : State := upd state1 (1, 0) ⟨[], 2⟩

lemma wf_state1 : WF state1 := by
  intro c
  unfold state1 upd init
  by_cases hc : c = (1, 0)
  · subst hc
    rw [if_pos rfl]
    exact ⟨List.nodup_nil, by simp, by decide⟩
  · rw [if_neg hc]
    exact ⟨List.nodup_nil, by simp, Nat.zero_le _⟩

/-- Witness for C3: allocating 4 bytes from the pristine allocator. -/
theorem alloc_no_alias_witness :
    WF init ∧
    ((⟨1, 0, 0⟩ : ptr).index ∉
        live init ((⟨1, 0, 0⟩ : ptr).a_group, (⟨1, 0, 0⟩ : ptr).s_group) ∧
     WF state1 ∧
     (∀ c : Nat × Nat, ∀ i, (i ∈ (state1 c).free ∨ i ∈ live state1 c) ↔
        i < (state1 c).high) ∧
     (∀ c : Nat × Nat, ∀ i, i ∈ (state1 c).free → i ∉ live state1 c) ∧
     (∀ q : ptr, q.index ∈ live state1 (q.a_group, q.s_group) →
        WF (free_parts state1 q))) :=
  ⟨wf_init, alloc_no_alias init 4 ⟨1, 0, 0⟩ state1 wf_init rfl⟩

/-- Witness for C4: allocate 4 bytes, free the returned address,
allocate 4 bytes again: the same address comes back. -/
theorem alloc_free_alloc_witness :
    WF init ∧
    (alloc (free state1 (encode ⟨1, 0, 0⟩)) 4).1 = Except.ok ⟨1, 0, 0⟩ :=
  ⟨wf_init, alloc_free_alloc init 4 ⟨1, 0, 0⟩ state1 wf_init rfl⟩

/-- Witness for C5: with slot 0 of the smallest class live, a byte write
through the freshly allocated slot 1 does not change the byte read from
slot 0. -/
theorem live_slot_frame_witness :
    (⟨1, 0, 0⟩ : ptr).index ∈ live state1 (1, 0) ∧
    writeByte (fun _ => 0) 35184372088836 7 35184372088832 = 0 :=
  ⟨by decide,
   live_slot_frame state1 4 ⟨1, 0, 1⟩ state2 ⟨1, 0, 0⟩ (fun _ => 0) 7
     35184372088832 35184372088836 wf_state1 rfl
     (by decide) (by decide) (by decide) (by decide)
     (by decide) (by decide) (by decide) (by decide)⟩

/-- Claim C6 counterexample: the claim states size_of(allocate(5000)) = 5008
(5000 rounded to a multiple of 16), but 5000 exceeds 4096 and therefore
falls in the third class, whose granule is 128: the allocator reports
5120. -/
theorem size_of_5000_cex :
    (alloc init 5000).1 = Except.ok ⟨3, 39, 0⟩ ∧
    size_of (encode ⟨3, 39, 0⟩) = 5120 ∧ (5120 : Nat) ≠ 5008 :=
  ⟨rfl, rfl, by decide⟩

/-- Claim C6 amended: size_of(allocate(1000)) = 1000 (a multiple of 4, first
class) and size_of(allocate(5000)) = 5120, i.e. 5000 rounded up to a
multiple of 128, the granule of the class that contains 5000. -/
theorem size_of_1000_5000 :
    (alloc init 1000).1 = Except.ok ⟨1, 249, 0⟩ ∧
    size_of (encode ⟨1, 249, 0⟩) = 1000 ∧
    (alloc init 5000).1 = Except.ok ⟨3, 39, 0⟩ ∧
    size_of (encode ⟨3, 39, 0⟩) = 5120 :=
  ⟨rfl, rfl, rfl, rfl⟩

/-- Claim C7: allocation fails with the invalid-size condition exactly when the
request is 0 or exceeds 128 MiB, and such a rejection leaves the allocator
state untouched; for requests between 1 and 128 MiB no invalid-size
failure occurs. -/
theorem alloc_invalid_size (σ : State) (bytes : Nat) :
    ((alloc σ bytes).1 = Except.error err.invalidSize ↔
      (bytes = 0 ∨ maxAlloc < bytes)) ∧
    ((bytes = 0 ∨ maxAlloc < bytes) → (alloc σ bytes).2 = σ) := by
  by_cases hb : bytes = 0 ∨ maxAlloc < bytes
  · refine ⟨⟨fun _ => hb, fun _ => ?_⟩, fun _ => ?_⟩
    · unfold alloc
      rw [if_pos hb]
    · unfold alloc
      rw [if_pos hb]
  · refine ⟨⟨fun herr => ?_, fun hb2 => absurd hb2 hb⟩, fun hb2 => absurd hb2 hb⟩
    exfalso
    unfold alloc at herr
    rw [if_neg hb] at herr
    rcases hfree : (σ (classify bytes)).free with _ | ⟨i, rest⟩
    · rw [hfree] at herr
      by_cases hroom : (σ (classify bytes)).high <
          cap (classify bytes).1 (classify bytes).2
      · rw [show ((match ([] : List Nat) with
          | i :: rest =>
            (Except.ok (⟨(classify bytes).1, (classify bytes).2, i⟩ : ptr),
             upd σ (classify bytes) ⟨rest, (σ (classify bytes)).high⟩)
          | [] =>
            if (σ (classify bytes)).high <
                cap (classify bytes).1 (classify bytes).2 then
              (Except.ok (⟨(classify bytes).1, (classify bytes).2,
                  (σ (classify bytes)).high⟩ : ptr),
               upd σ (classify bytes) ⟨[], (σ (classify bytes)).high + 1⟩)
            else (Except.error err.outOfMemory, σ)) :
            Except err ptr × State) =
          (Except.ok (⟨(classify bytes).1, (classify bytes).2,
              (σ (classify bytes)).high⟩ : ptr),
           upd σ (classify bytes) ⟨[], (σ (classify bytes)).high + 1⟩)
          from if_pos hroom] at herr
        exact absurd herr (by simp)
      · rw [show ((match ([] : List Nat) with
          | i :: rest =>
            (Except.ok (⟨(classify bytes).1, (classify bytes).2, i⟩ : ptr),
             upd σ (classify bytes) ⟨rest, (σ (classify bytes)).high⟩)
          | [] =>
            if (σ (classify bytes)).high <
                cap (classify bytes).1 (classify bytes).2 then
              (Except.ok (⟨(classify bytes).1, (classify bytes).2,
                  (σ (classify bytes)).high⟩ : ptr),
               upd σ (classify bytes) ⟨[], (σ (classify bytes)).high + 1⟩)
            else (Except.error err.outOfMemory, σ)) :
            Except err ptr × State) = (Except.error err.outOfMemory, σ)
          from if_neg hroom] at herr
        simp only at herr
        exact err.noConfusion (Except.error.inj herr)
    · rw [hfree] at herr
      exact absurd herr (by simp)

/-- Witness for C7: a zero-byte request is rejected with the allocator
state untouched. -/
theorem alloc_invalid_size_witness :
    ((0 : Nat) = 0 ∨ maxAlloc < 0) ∧ (alloc init 0).2 = init :=
  ⟨Or.inl rfl, (alloc_invalid_size init 0).2 (Or.inl rfl)⟩
